import Mathlib

/-!
Shallow embedding of the projectile and networking logic of shoot.py.

Python floats are modelled as exact rationals. The library square root
math.sqrt is modelled as an abstract parameter sq : ℚ → ℚ; every theorem
below that touches it holds for an arbitrary sq, hence in particular for
the true square root. Randomly drawn quantities are modelled as parameters
constrained to the intervals the code draws them from.
-/

/-- Python built-in round (round-half-to-even) on a rational, as used in
int(round(x)) for an x that is an exact value. -/
def pyRound (q : ℚ) : ℤ :=
  let f : ℤ := ⌊q⌋
  let r : ℚ := q - f
  if r < 1/2 then f
  else if 1/2 < r then f + 1
  else if f % 2 = 0 then f else f + 1

/-- A screen rectangle, as QRect: integer left, top, width, height. -/
structure Rect where
  left : ℤ
  top : ℤ
  width : ℤ
  height : ℤ
  deriving DecidableEq

/-- QRect.contains for a point: left <= x <= left+width-1 and
top <= y <= top+height-1 (Qt right() is left+width-1, bottom() is top+height-1). -/
def Rect.containsP (r : Rect) (p : ℤ × ℤ) : Bool :=
  decide (r.left ≤ p.1) && decide (p.1 ≤ r.left + r.width - 1) &&
  decide (r.top ≤ p.2) && decide (p.2 ≤ r.top + r.height - 1)

/-- Normalized projectile position at time t, from ProjectileOverlay._pos_at:
x = x0 + vx*t, y = y0 + vy*t + 0.5*g*t*t. -/
def posAt (x0 y0 vx vy g t : ℚ) : ℚ × ℚ :=
  (x0 + vx * t, y0 + vy * t + 0.5 * g * t * t)

/-- Pixel position from ProjectileOverlay._pos_at:
px = geo.left + int(round(x * geo.width)), py = geo.top + int(round(y * geo.height)). -/
def posAtPix (geo : Rect) (x0 y0 vx vy g t : ℚ) : ℤ × ℤ :=
  (geo.left + pyRound ((posAt x0 y0 vx vy g t).1 * geo.width),
   geo.top + pyRound ((posAt x0 y0 vx vy g t).2 * geo.height))

/-- The landing-time solver _solve_landing_time of shoot.py, with math.sqrt
modelled by the parameter sq. Solves 0.5*g*t^2 + vy*t + (y0 - y_land) = 0. -/
def solve_landing_time (sq : ℚ → ℚ) (y0 vy g y_land : ℚ) : ℚ :=
  let a := 0.5 * g
  let b := vy
  let c := y0 - y_land
  if |a| < 1e-9 then
    if |b| < 1e-9 then 0
    else max 0 (-c / b)
  else
    let disc := b * b - 4 * a * c
    if disc < 0 then 0
    else
      let s := sq disc
      let t1 := (-b - s) / (2 * a)
      let t2 := (-b + s) / (2 * a)
      max 0 (max t1 t2)

/-- Parameters recorded when a ProjectileOverlay is spawned. -/
structure LocalRun where
  x0 : ℚ
  y0 : ℚ
  vx : ℚ
  vy : ℚ
  g : ℚ
  t_end : ℚ
  allowKill : Bool
  deriving DecidableEq

/-- Result of a local shoot function: an error string, or a spawned overlay. -/
inductive LocalOutcome where
  | err (msg : String)
  | run (r : LocalRun)
  deriving DecidableEq

/-- shoot_projectile_local_exit_right of shoot.py: launch from (sx, sy),
animate until x reaches 1.05; the overlay is created with allow_kill=False. -/
def shoot_projectile_local_exit_right (sx sy vx vy g : ℚ) : LocalOutcome :=
  if vx ≤ 0 then .err "Projectile vx must be > 0"
  else
    let t_end := (1.05 - sx) / vx
    if t_end ≤ 0 then .err "Projectile already past right edge"
    else .run ⟨sx, sy, vx, vy, g, t_end, false⟩

/-- shoot_projectile_local_exit_left of shoot.py: the sampled projectile
type speed multiplier is the parameter mult (vx is scaled by it first);
animate until x reaches -0.05; allow_kill=False. -/
def shoot_projectile_local_exit_left (mult sx sy vx vy g : ℚ) : LocalOutcome :=
  let vx2 := vx * mult
  if 0 ≤ vx2 then .err "Projectile vx must be < 0 for right-to-left shooting"
  else
    let t_end := (-0.05 - sx) / vx2
    if t_end ≤ 0 then .err "Projectile already past left edge"
    else .run ⟨sx, sy, vx2, vy, g, t_end, false⟩

/-- A callback connected to the finished signal of a ProjectileOverlay. -/
inductive FinishEffect where
  | removeActive
  | maybeExplode (t_end t_land : ℚ)
  deriving DecidableEq

/-- Callbacks connected to finished for a locally launched projectile
(shoot_projectile_local_exit_right and _left): only the removal from the
active list; no explosion callback is ever connected. -/
def localFinishEffects : List FinishEffect := [.removeActive]

/-- Whether one finished-callback shows an explosion at finish point p:
_maybe_explode fires iff t_end >= t_land - 1e-6 and geo.contains(p). -/
def effectExplodes (geo : Rect) (p : ℤ × ℤ) : FinishEffect → Bool
  | .removeActive => false
  | .maybeExplode t_end t_land => decide (t_land - 1e-6 ≤ t_end) && geo.containsP p

/-- Whether any connected finished-callback shows an explosion. -/
def finishExplodes (geo : Rect) (effs : List FinishEffect) (p : ℤ × ℤ) : Bool :=
  effs.any (effectExplodes geo p)

/-- Data of a scheduled remote projectile spawn. -/
structure Sched where
  delay_ms : ℤ
  x0 : ℚ
  y0 : ℚ
  vx : ℚ
  vy : ℚ
  g : ℚ
  t_end : ℚ
  t_land : ℚ
  deriving DecidableEq

/-- Result of a remote arrival function: error string, silent discard
(return None before scheduling the spawn), or a scheduled spawn. -/
inductive RemoteOutcome where
  | err (msg : String)
  | discarded
  | sched (s : Sched)
  deriving DecidableEq

/-- Callbacks connected to finished for a remotely scheduled projectile:
removal from the active list, then _maybe_explode with the captured
t_end and t_land. -/
def schedFinishEffects (s : Sched) : List FinishEffect :=
  [.removeActive, .maybeExplode s.t_end s.t_land]

/-- Receiver recomputation in shoot_projectile_remote_arrive_left:
t_exit = (1.05 - sx)/vx clamped to >= 0. -/
def recv_t_exit_left (sx vx : ℚ) : ℚ :=
  let t := (1.05 - sx) / vx
  if t < 0 then 0 else t

/-- Receiver recomputation: y_exit = sy + vy0*t_exit + 0.5*g*t_exit^2. -/
def recv_y_exit_left (sx sy vx vy0 g : ℚ) : ℚ :=
  sy + vy0 * recv_t_exit_left sx vx + 0.5 * g * recv_t_exit_left sx vx * recv_t_exit_left sx vx

/-- Receiver recomputation: vy_exit = vy0 + g*t_exit. -/
def recv_vy_exit_left (sx vx vy0 g : ℚ) : ℚ :=
  vy0 + g * recv_t_exit_left sx vx

/-- Landing height used by the remote arrival functions: the transmitted
land_ny clamped to [0.05, 0.95] when present, else the sender origin sy. -/
def clampLand (sy : ℚ) (land_ny : Option ℚ) : ℚ :=
  match land_ny with
  | some l => max 0.05 (min 0.95 l)
  | none => sy

/-- Landing time computed by shoot_projectile_remote_arrive_left: the solver
output on the entry state, raised to at least 0.05. -/
def t_land_left (sq : ℚ → ℚ) (sx sy vx vy0 g : ℚ) (land_ny : Option ℚ) : ℚ :=
  let t := solve_landing_time sq (recv_y_exit_left sx sy vx vy0 g)
      (recv_vy_exit_left sx vx vy0 g) g (clampLand sy land_ny)
  if t ≤ 0.05 then 0.05 else t

/-- Entry time on the left-arrival screen: t at which x crosses 0.0,
from x0 = -0.05: t_enter = (0.0 - x0)/vx. -/
def t_enter_left (vx : ℚ) : ℚ := (0 - (-0.05 : ℚ)) / vx

/-- Time at which the remote projectile reaches the exit point x = 1.05 on
the left-arrival screen, from x0 = -0.05. -/
def t_exit_screen_left (vx : ℚ) : ℚ := (1.05 - (-0.05 : ℚ)) / vx

/-- shoot_projectile_remote_arrive_left of shoot.py as a pure outcome:
recompute the exit state, clamp the landing height, solve the landing time,
discard when t_land <= t_enter, otherwise schedule the spawn with
t_end = min(t_land, t_exit_screen). -/
def shoot_projectile_remote_arrive_left (sq : ℚ → ℚ) (sx sy vx vy0 g : ℚ)
    (start_delay_ms : Option ℤ) (land_ny : Option ℚ) : RemoteOutcome :=
  if vx ≤ 0 then .err "Projectile vx must be > 0"
  else
    let delay : ℤ :=
      match start_delay_ms with
      | none => pyRound (recv_t_exit_left sx vx * 1000)
      | some d => max 0 d
    let y0 := recv_y_exit_left sx sy vx vy0 g
    let vy_start := recv_vy_exit_left sx vx vy0 g
    let t_land := t_land_left sq sx sy vx vy0 g land_ny
    if t_land ≤ t_enter_left vx then .discarded
    else .sched ⟨delay, -0.05, y0, vx, vy_start, g, min t_land (t_exit_screen_left vx), t_land⟩

/-- Receiver recomputation in shoot_projectile_remote_arrive_right:
t_exit = (-0.05 - sx)/vx clamped to >= 0. -/
def recv_t_exit_right (sx vx : ℚ) : ℚ :=
  let t := (-0.05 - sx) / vx
  if t < 0 then 0 else t

/-- Receiver recomputation (right arrival): y_exit. -/
def recv_y_exit_right (sx sy vx vy0 g : ℚ) : ℚ :=
  sy + vy0 * recv_t_exit_right sx vx + 0.5 * g * recv_t_exit_right sx vx * recv_t_exit_right sx vx

/-- Receiver recomputation (right arrival): vy_exit. -/
def recv_vy_exit_right (sx vx vy0 g : ℚ) : ℚ :=
  vy0 + g * recv_t_exit_right sx vx

/-- Landing time computed by shoot_projectile_remote_arrive_right. -/
def t_land_right (sq : ℚ → ℚ) (sx sy vx vy0 g : ℚ) (land_ny : Option ℚ) : ℚ :=
  let t := solve_landing_time sq (recv_y_exit_right sx sy vx vy0 g)
      (recv_vy_exit_right sx vx vy0 g) g (clampLand sy land_ny)
  if t ≤ 0.05 then 0.05 else t

/-- Entry time on the right-arrival screen: t at which x crosses 1.0,
from x0 = 1.05: t_enter = (1.0 - x0)/vx. -/
def t_enter_right (vx : ℚ) : ℚ := (1 - (1.05 : ℚ)) / vx

/-- Time at which the remote projectile reaches the exit point x = -0.05 on
the right-arrival screen, from x0 = 1.05. -/
def t_exit_screen_right (vx : ℚ) : ℚ := (-0.05 - (1.05 : ℚ)) / vx

/-- shoot_projectile_remote_arrive_right of shoot.py as a pure outcome. -/
def shoot_projectile_remote_arrive_right (sq : ℚ → ℚ) (sx sy vx vy0 g : ℚ)
    (start_delay_ms : Option ℤ) (land_ny : Option ℚ) : RemoteOutcome :=
  if 0 ≤ vx then .err "Projectile vx must be < 0 for right-to-left shooting"
  else
    let delay : ℤ :=
      match start_delay_ms with
      | none => pyRound (recv_t_exit_right sx vx * 1000)
      | some d => max 0 d
    let y0 := recv_y_exit_right sx sy vx vy0 g
    let vy_start := recv_vy_exit_right sx vx vy0 g
    let t_land := t_land_right sq sx sy vx vy0 g land_ny
    if t_land ≤ t_enter_right vx then .discarded
    else .sched ⟨delay, 1.05, y0, vx, vy_start, g, min t_land (t_exit_screen_right vx), t_land⟩

/-- Sender computation in on_cat_clicked, left_to_right branch:
t_exit = (1.05 - sx)/vx, clamped to >= 0. -/
def sender_t_exit_lr (sx vx : ℚ) : ℚ :=
  let t := (1.05 - sx) / vx
  if t < 0 then 0 else t

/-- Sender computation (left_to_right): y_exit. -/
def sender_y_exit_lr (sx sy vx vy g : ℚ) : ℚ :=
  sy + vy * sender_t_exit_lr sx vx + 0.5 * g * sender_t_exit_lr sx vx * sender_t_exit_lr sx vx

/-- Sender computation (left_to_right): vy_exit. -/
def sender_vy_exit_lr (sx vx vy g : ℚ) : ℚ :=
  vy + g * sender_t_exit_lr sx vx

/-- Sender computation in on_cat_clicked, right_to_left branch:
t_exit = (-0.05 - sx)/vx, clamped to >= 0. -/
def sender_t_exit_rl (sx vx : ℚ) : ℚ :=
  let t := (-0.05 - sx) / vx
  if t < 0 then 0 else t

/-- Sender computation (right_to_left): y_exit. -/
def sender_y_exit_rl (sx sy vx vy g : ℚ) : ℚ :=
  sy + vy * sender_t_exit_rl sx vx + 0.5 * g * sender_t_exit_rl sx vx * sender_t_exit_rl sx vx

/-- Sender computation (right_to_left): vy_exit. -/
def sender_vy_exit_rl (sx vx vy g : ℚ) : ℚ :=
  vy + g * sender_t_exit_rl sx vx

/-- Minimum reachable height from the exit state, on_cat_clicked:
y_exit - vy_exit^2/(2g) when g > 1e-9, else y_exit. -/
def y_min_exit (sy vy g t_exit : ℚ) : ℚ :=
  let y_exit := sy + vy * t_exit + 0.5 * g * t_exit * t_exit
  let vy_exit := vy + g * t_exit
  if 1e-9 < g then y_exit - vy_exit * vy_exit / (2 * g) else y_exit

/-- Lower bound of the landing interval in on_cat_clicked:
low = max(0.05, min(0.95, y_min_exit + 0.02)). -/
def landLow (ymin : ℚ) : ℚ := max 0.05 (min 0.95 (ymin + 0.02))

/-- Upper bound of the landing interval in on_cat_clicked: high = 0.90,
widened to min(0.95, low + 0.10) when low >= high. -/
def landHigh (ymin : ℚ) : ℚ :=
  if 0.90 ≤ landLow ymin then min 0.95 (landLow ymin + 0.10) else 0.90

/-- A zeroconf service-state-change event together with the outcome of its
asynchronous resolution (get_service_info): whether the state change is
Added, whether resolution returned a record, the embedded instance_id
property, the first IPv4 address (if any), the port and the service name. -/
structure SvcEvent where
  isAdded : Bool
  resolved : Bool
  instanceId : String
  host : Option String
  port : ℤ
  name : String
  deriving DecidableEq

/-- ZeroConfP2P._on_service_state_change together with its _resolve body:
returns the peer_found emission (name, host, port) if one is made. Skips
when closed, when the change is not Added, when resolution fails, when the
embedded instance id equals the local one, or when no IPv4 address exists. -/
def on_service_state_change (localId : String) (closed : Bool) (e : SvcEvent) :
    Option (String × String × ℤ) :=
  if closed then none
  else if !e.isAdded then none
  else if !e.resolved then none
  else if e.instanceId = localId then none
  else
    match e.host with
    | none => none
    | some h => some (e.name, h, e.port)

/-- All peer_found emissions produced by a sequence of service events on an
open (not closed) ZeroConfP2P instance, in order. -/
def peerEmissions (localId : String) (es : List SvcEvent) : List (String × String × ℤ) :=
  es.filterMap (on_service_state_change localId false)

/-- MultiMessageClient.connect_to: opens a new connection for the key
(host, port) unless one is already tracked (dict insertion order). -/
def connect_to (st : List (String × ℤ)) (key : String × ℤ) : List (String × ℤ) :=
  if key ∈ st then st else st ++ [key]

/-- The set of outbound connections opened after feeding every peer_found
emission to MultiMessageClient.connect_to (the on_peer handler). -/
def connectionsOf (ems : List (String × String × ℤ)) : List (String × ℤ) :=
  ems.foldl (fun st e => connect_to st (e.2.1, e.2.2)) []

/-- The _on_ready_read while-loop of MessageServer and MessageClient:
while a newline (byte 10) is in rx, split off the first line and emit it
(the server emits only nonempty lines, keepEmpty = false; the client emits
every line, keepEmpty = true); what remains is the new buffer. The fuel
argument bounds the iteration count; rx.length always suffices since each
iteration consumes the first newline. -/
def drainGo (keepEmpty : Bool) : Nat → List Nat → List (List Nat) × List Nat
  | 0, rx => ([], rx)
  | fuel + 1, rx =>
      if 10 ∈ rx then
        let line := rx.takeWhile (fun c => c ≠ 10)
        let rest := (rx.dropWhile (fun c => c ≠ 10)).drop 1
        let p := drainGo keepEmpty fuel rest
        (if keepEmpty || !line.isEmpty then line :: p.1 else p.1, p.2)
      else ([], rx)

/-- One _on_ready_read pass over a buffer rx: emitted lines and new buffer. -/
def drain (keepEmpty : Bool) (rx : List Nat) : List (List Nat) × List Nat :=
  drainGo keepEmpty rx.length rx

/-- Repeated _on_ready_read calls on one connection: starting from buffer
buf, process each received chunk in order, accumulating emitted messages;
returns (all messages, final buffer). -/
def runFrom (keepEmpty : Bool) (buf : List Nat) : List (List Nat) → List (List Nat) × List Nat
  | [] => ([], buf)
  | c :: cs =>
      let p := drain keepEmpty (buf ++ c)
      let q := runFrom keepEmpty p.2 cs
      (p.1 ++ q.1, q.2)

/-- A fresh connection of MessageServer (per-socket buffer starts empty):
messages emitted for a sequence of chunks, and the final buffer. -/
def serverMessages (chunks : List (List Nat)) : List (List Nat) × List Nat :=
  runFrom false [] chunks

/-- A fresh connection of MessageClient: messages emitted for a sequence of
chunks, and the final buffer. -/
def clientMessages (chunks : List (List Nat)) : List (List Nat) × List Nat :=
  runFrom true [] chunks

/-- C10: the landing-time solver is total and never returns a negative
time; it is the larger quadratic root clamped to >= 0 when |0.5*g| >= 1e-9
and the discriminant is non-negative, the clamped linear solution when g is
degenerate and |vy| >= 1e-9, and exactly 0 when the discriminant is
negative or both coefficients are degenerate. Totality (no branch raises)
is inherent: solve_landing_time is a total function of its inputs. -/
theorem c10_solve_landing_time_total (sq : ℚ → ℚ) (y0 vy g y_land : ℚ) :
    0 ≤ solve_landing_time sq y0 vy g y_land
    ∧ (|0.5 * g| < 1e-9 → |vy| < 1e-9 → solve_landing_time sq y0 vy g y_land = 0)
    ∧ (|0.5 * g| < 1e-9 → ¬ |vy| < 1e-9 →
        solve_landing_time sq y0 vy g y_land = max 0 (-(y0 - y_land) / vy))
    ∧ (¬ |0.5 * g| < 1e-9 → vy * vy - 4 * (0.5 * g) * (y0 - y_land) < 0 →
        solve_landing_time sq y0 vy g y_land = 0)
    ∧ (¬ |0.5 * g| < 1e-9 → ¬ vy * vy - 4 * (0.5 * g) * (y0 - y_land) < 0 →
        solve_landing_time sq y0 vy g y_land =
          max 0 (max ((-vy - sq (vy * vy - 4 * (0.5 * g) * (y0 - y_land))) / (2 * (0.5 * g)))
                 ((-vy + sq (vy * vy - 4 * (0.5 * g) * (y0 - y_land))) / (2 * (0.5 * g))))) := by
  unfold solve_landing_time
  refine ⟨?_, ?_, ?_, ?_, ?_⟩ <;> simp only []
  · split_ifs <;> simp [le_max_left]
  · intro h1 h2; simp [h1, h2]
  · intro h1 h2; simp [h1, h2]
  · intro h1 h2; simp [h1, h2]
  · intro h1 h2; simp [h1, h2]

/-- Witness for C10 at the concrete input (y0, vy, g, y_land) = (0, 0, 2, -1),
whose discriminant is -4 < 0. -/
theorem c10_witness :
    0 ≤ solve_landing_time (fun q => q) 0 0 2 (-1)
    ∧ solve_landing_time (fun q => q) 0 0 2 (-1) = 0 :=
  ⟨(c10_solve_landing_time_total (fun q => q) 0 0 2 (-1)).1,
   (c10_solve_landing_time_total (fun q => q) 0 0 2 (-1)).2.2.2.1
     (by norm_num) (by norm_num)⟩

/-- C9: for the launch with origin (0.5, 0.5), vx = 1, vy = -1, g = 2,
direction left-to-right, the time to reach the exit boundary x = 1.05 is
0.55 s, and the position at t = 0.55 is (1.05, 0.2525) under the kinematics
x = sx + vx*t, y = sy + vy*t + 0.5*g*t^2. -/
theorem c9_concrete_scenario :
    shoot_projectile_local_exit_right 0.5 0.5 1 (-1) 2
      = .run ⟨0.5, 0.5, 1, -1, 2, 0.55, false⟩
    ∧ posAt 0.5 0.5 1 (-1) 2 0.55 = (1.05, 0.2525) := by
  constructor
  · norm_num [shoot_projectile_local_exit_right]
  · norm_num [posAt, Prod.ext_iff]

/-- C1: for a left-to-right trajectory message with vx > 0, the receiver in
shoot_projectile_remote_arrive_left recomputes the exit state (t_exit,
y_exit, vy_exit) exactly as the sender did in on_cat_clicked from the same
(sx, sy, vx, vy, g); symmetrically for right-to-left (vx < 0) with exit
boundary x = -0.05. Sender and receiver therefore compute identical
(y_exit, vy_exit) from the same message. -/
theorem c1_exit_state_agreement (sx sy vx vy g : ℚ) :
    (0 < vx →
      sender_t_exit_lr sx vx = recv_t_exit_left sx vx
      ∧ sender_y_exit_lr sx sy vx vy g = recv_y_exit_left sx sy vx vy g
      ∧ sender_vy_exit_lr sx vx vy g = recv_vy_exit_left sx vx vy g)
    ∧ (vx < 0 →
      sender_t_exit_rl sx vx = recv_t_exit_right sx vx
      ∧ sender_y_exit_rl sx sy vx vy g = recv_y_exit_right sx sy vx vy g
      ∧ sender_vy_exit_rl sx vx vy g = recv_vy_exit_right sx vx vy g) :=
  ⟨fun _ => ⟨rfl, rfl, rfl⟩, fun _ => ⟨rfl, rfl, rfl⟩⟩

/-- Witness for C1 at (sx, sy, vx, vy, g) = (0, 0, 1, 0, 1) for the
left-to-right part and vx = -1 for the right-to-left part. -/
theorem c1_witness :
    sender_y_exit_lr 0 0 1 0 1 = recv_y_exit_left 0 0 1 0 1
    ∧ sender_y_exit_rl 0 0 (-1) 0 1 = recv_y_exit_right 0 0 (-1) 0 1 :=
  ⟨((c1_exit_state_agreement 0 0 1 0 1).1 (by norm_num)).2.1,
   ((c1_exit_state_agreement 0 0 (-1) 0 1).2 (by norm_num)).2.1⟩

/-- Helper: the left arrival function discards when t_land <= t_enter. -/
lemma arriveLeft_discard (sq : ℚ → ℚ) (sx sy vx vy0 g : ℚ)
    (d : Option ℤ) (land : Option ℚ) (h1 : 0 < vx)
    (h2 : t_land_left sq sx sy vx vy0 g land ≤ t_enter_left vx) :
    shoot_projectile_remote_arrive_left sq sx sy vx vy0 g d land = .discarded := by
  simp [shoot_projectile_remote_arrive_left, not_le.mpr h1, h2]

/-- Helper: the right arrival function discards when t_land <= t_enter. -/
lemma arriveRight_discard (sq : ℚ → ℚ) (sx sy vx vy0 g : ℚ)
    (d : Option ℤ) (land : Option ℚ) (h1 : vx < 0)
    (h2 : t_land_right sq sx sy vx vy0 g land ≤ t_enter_right vx) :
    shoot_projectile_remote_arrive_right sq sx sy vx vy0 g d land = .discarded := by
  simp [shoot_projectile_remote_arrive_right, not_le.mpr h1, h2]

/-- C4: for every received trajectory message, if the computed landing time
t_land is not after the entry time t_enter (the time at which x first
crosses into [0,1] on the receiving screen), the shot is discarded
entirely: the function returns before any ProjectileOverlay spawn is
scheduled, so nothing is ever rendered or exploded for it. -/
theorem c4_discard_before_entry (sq : ℚ → ℚ) (sx sy vx vy0 g : ℚ)
    (d : Option ℤ) (land : Option ℚ) :
    (0 < vx → t_land_left sq sx sy vx vy0 g land ≤ t_enter_left vx →
      shoot_projectile_remote_arrive_left sq sx sy vx vy0 g d land = .discarded)
    ∧ (vx < 0 → t_land_right sq sx sy vx vy0 g land ≤ t_enter_right vx →
      shoot_projectile_remote_arrive_right sq sx sy vx vy0 g d land = .discarded) :=
  ⟨fun h1 h2 => arriveLeft_discard sq sx sy vx vy0 g d land h1 h2,
   fun h1 h2 => arriveRight_discard sq sx sy vx vy0 g d land h1 h2⟩

/-- Witness for C4 at sx = 1.05, sy = 0.5, vx = 1, vy0 = 0, g = 2,
land_ny = 0.3: the solver returns 0 (negative discriminant), t_land is
clamped to 0.05 and t_enter = 0.05, so the shot is discarded. -/
theorem c4_witness :
    shoot_projectile_remote_arrive_left (fun q => q) 1.05 0.5 1 0 2 none (some 0.3)
      = .discarded :=
  (c4_discard_before_entry (fun q => q) 1.05 0.5 1 0 2 none (some 0.3)).1
    (by norm_num)
    (by norm_num [t_land_left, t_enter_left, recv_y_exit_left, recv_vy_exit_left,
        recv_t_exit_left, clampLand, solve_landing_time])

/-- Helper: the solver returns 0 when the quadratic coefficient is not
degenerate and the discriminant is negative. -/
lemma solve_eq_zero_of_neg_disc (sq : ℚ → ℚ) (y0 vy g yl : ℚ)
    (ha : ¬ |0.5 * g| < 1e-9)
    (hd : vy * vy - 4 * (0.5 * g) * (y0 - yl) < 0) :
    solve_landing_time sq y0 vy g yl = 0 := by
  simp [solve_landing_time, ha, hd]

/-- Counterexample to C2: the received message sx = 1.05, sy = 0.5, vx = 2,
vy0 = 0, g = 2, land_ny = 0.3 has a negative landing discriminant (-0.8)
with |0.5*g| = 1 >= 1e-9, yet the arrival function does schedule a shot:
after the solver returns 0 the landing time is clamped to 0.05, which
exceeds t_enter = 0.05/vx = 0.025, so a ProjectileOverlay spawn is
scheduled (and its t_end = t_land, so the impact effect can fire). -/
theorem c2_counterexample :
    recv_vy_exit_left 1.05 2 0 2 * recv_vy_exit_left 1.05 2 0 2
        - 4 * (0.5 * 2) * (recv_y_exit_left 1.05 0.5 2 0 2 - clampLand 0.5 (some 0.3)) < 0
    ∧ ¬ |0.5 * (2 : ℚ)| < 1e-9
    ∧ shoot_projectile_remote_arrive_left (fun q => q) 1.05 0.5 2 0 2 none (some 0.3)
        = .sched ⟨0, -0.05, 0.5, 2, 0, 2, 0.05, 0.05⟩ := by
  refine ⟨?_, by norm_num, ?_⟩
  · norm_num [recv_vy_exit_left, recv_y_exit_left, recv_t_exit_left, clampLand]
  · norm_num [shoot_projectile_remote_arrive_left, t_land_left, t_enter_left,
      t_exit_screen_left, recv_y_exit_left, recv_vy_exit_left, recv_t_exit_left,
      clampLand, solve_landing_time, pyRound, Sched.mk.injEq]

/-- C2 as amended: for a received left-arrival trajectory message whose
landing quadratic has a negative discriminant (with |0.5*g| >= 1e-9), the
solver reports landing time 0, which the caller clamps to 0.05; the shot is
then discarded (no ProjectileOverlay, no animation, no impact) provided
vx <= 1, i.e. provided the entry time 0.05/vx is at least 0.05. For vx > 1
the clamped landing time exceeds the entry time and the shot is scheduled
after all (see the counterexample). -/
theorem c2_amended_unreachable_discard (sq : ℚ → ℚ) (sx sy vx vy0 g : ℚ)
    (d : Option ℤ) (land : Option ℚ)
    (h1 : 0 < vx) (hvx1 : vx ≤ 1)
    (ha : ¬ |0.5 * g| < 1e-9)
    (hd : recv_vy_exit_left sx vx vy0 g * recv_vy_exit_left sx vx vy0 g
        - 4 * (0.5 * g) * (recv_y_exit_left sx sy vx vy0 g - clampLand sy land) < 0) :
    shoot_projectile_remote_arrive_left sq sx sy vx vy0 g d land = .discarded := by
  have hsolve := solve_eq_zero_of_neg_disc sq (recv_y_exit_left sx sy vx vy0 g)
    (recv_vy_exit_left sx vx vy0 g) g (clampLand sy land) ha hd
  have hland : t_land_left sq sx sy vx vy0 g land = 0.05 := by
    rw [t_land_left, hsolve]
    norm_num
  have henter : (0.05 : ℚ) ≤ t_enter_left vx := by
    rw [t_enter_left]
    rw [show ((0 : ℚ) - (-0.05 : ℚ)) = 0.05 by norm_num]
    rw [le_div_iff₀ h1]
    nlinarith
  exact arriveLeft_discard sq sx sy vx vy0 g d land h1 (by rw [hland]; exact henter)

/-- Witness for the amended C2 at sx = 1.05, sy = 0.5, vx = 1, vy0 = 0,
g = 2, land_ny = 0.3 (discriminant -0.8 < 0, vx <= 1): discarded. -/
theorem c2_amended_witness :
    shoot_projectile_remote_arrive_left (fun q => q) 1.05 0.5 1 0 2 (some 100) (some 0.3)
      = .discarded :=
  c2_amended_unreachable_discard (fun q => q) 1.05 0.5 1 0 2 (some 100) (some 0.3)
    (by norm_num) (by norm_num) (by norm_num)
    (by norm_num [recv_vy_exit_left, recv_y_exit_left, recv_t_exit_left, clampLand])

/-- C3: for every received trajectory message that does get scheduled, the
animation terminal time is t_end = min(t_land, t_exit_screen); the impact
effect fires at the final position iff the terminal condition is the
landing height (t_end >= t_land - 1e-6) and the final pixel position lies
within the receiving screen geometry; and when the terminal condition is
instead the re-exit (t_end < t_land), the final position is exactly the
screen exit boundary (x = 1.05 for a left arrival, x = -0.05 for a right
arrival) and no impact fires there by the same criterion. -/
theorem c3_terminal_and_impact (sq : ℚ → ℚ) (sx sy vx vy0 g : ℚ)
    (d : Option ℤ) (land : Option ℚ) (s : Sched) (geo : Rect) :
    (shoot_projectile_remote_arrive_left sq sx sy vx vy0 g d land = .sched s →
      s.t_end = min s.t_land (t_exit_screen_left s.vx)
      ∧ (finishExplodes geo (schedFinishEffects s)
            (posAtPix geo s.x0 s.y0 s.vx s.vy s.g s.t_end) = true ↔
          (s.t_land - 1e-6 ≤ s.t_end
           ∧ geo.containsP (posAtPix geo s.x0 s.y0 s.vx s.vy s.g s.t_end) = true))
      ∧ (s.t_end < s.t_land → s.x0 + s.vx * s.t_end = 1.05))
    ∧ (shoot_projectile_remote_arrive_right sq sx sy vx vy0 g d land = .sched s →
      s.t_end = min s.t_land (t_exit_screen_right s.vx)
      ∧ (finishExplodes geo (schedFinishEffects s)
            (posAtPix geo s.x0 s.y0 s.vx s.vy s.g s.t_end) = true ↔
          (s.t_land - 1e-6 ≤ s.t_end
           ∧ geo.containsP (posAtPix geo s.x0 s.y0 s.vx s.vy s.g s.t_end) = true))
      ∧ (s.t_end < s.t_land → s.x0 + s.vx * s.t_end = -0.05)) := by
  constructor
  · intro h
    rw [shoot_projectile_remote_arrive_left.eq_def] at h
    by_cases hv : vx ≤ 0
    · simp [hv] at h
    rw [if_neg hv] at h
    simp only [] at h
    split_ifs at h with hland
    rw [RemoteOutcome.sched.injEq] at h
    subst h
    refine ⟨rfl, ?_, ?_⟩
    · simp [finishExplodes, schedFinishEffects, effectExplodes, and_comm]
    · intro hlt
      simp only [] at hlt ⊢
      have hvpos : (0 : ℚ) < vx := lt_of_not_le hv
      have hne : vx ≠ 0 := ne_of_gt hvpos
      have hmin : min (t_land_left sq sx sy vx vy0 g land) (t_exit_screen_left vx)
          = t_exit_screen_left vx := by
        rcases min_cases (t_land_left sq sx sy vx vy0 g land) (t_exit_screen_left vx) with
          ⟨he, _⟩ | ⟨he, _⟩
        · rw [he] at hlt; exact absurd hlt (lt_irrefl _)
        · exact he
      rw [hmin, t_exit_screen_left]
      field_simp
  · intro h
    rw [shoot_projectile_remote_arrive_right.eq_def] at h
    by_cases hv : 0 ≤ vx
    · simp [hv] at h
    rw [if_neg hv] at h
    simp only [] at h
    split_ifs at h with hland
    rw [RemoteOutcome.sched.injEq] at h
    subst h
    refine ⟨rfl, ?_, ?_⟩
    · simp [finishExplodes, schedFinishEffects, effectExplodes, and_comm]
    · intro hlt
      simp only [] at hlt ⊢
      have hne : vx ≠ 0 := ne_of_lt (lt_of_not_le hv)
      have hmin : min (t_land_right sq sx sy vx vy0 g land) (t_exit_screen_right vx)
          = t_exit_screen_right vx := by
        rcases min_cases (t_land_right sq sx sy vx vy0 g land) (t_exit_screen_right vx) with
          ⟨he, _⟩ | ⟨he, _⟩
        · rw [he] at hlt; exact absurd hlt (lt_irrefl _)
        · exact he
      rw [hmin, t_exit_screen_right]
      field_simp

/-- Witness for C3 at the concrete scheduled message sx = 0.5, sy = 0.5,
vx = 1, vy0 = 0, g = 2, land_ny = 0.9 with sq the identity function: the
scheduled spawn is (delay 550 ms, start (-0.05, 0.8025), vy 1.1,
t_end = t_land = 0.25), and t_end = min(t_land, t_exit_screen). -/
theorem c3_witness :
    (⟨550, -0.05, 0.8025, 1, 1.1, 2, 0.25, 0.25⟩ : Sched).t_end
      = min (⟨550, -0.05, 0.8025, 1, 1.1, 2, 0.25, 0.25⟩ : Sched).t_land
          (t_exit_screen_left (⟨550, -0.05, 0.8025, 1, 1.1, 2, 0.25, 0.25⟩ : Sched).vx) :=
  ((c3_terminal_and_impact (fun q => q) 0.5 0.5 1 0 2 none (some 0.9)
      ⟨550, -0.05, 0.8025, 1, 1.1, 2, 0.25, 0.25⟩ ⟨0, 0, 1920, 1080⟩).1
    (by norm_num [shoot_projectile_remote_arrive_left, t_land_left, t_enter_left,
        t_exit_screen_left, recv_y_exit_left, recv_vy_exit_left, recv_t_exit_left,
        clampLand, solve_landing_time, pyRound, Sched.mk.injEq])).1

/-- C5: for every local launch and every possible random draw, the
broadcast land_ny is never below the minimum reachable height of the exit
state plus 0.02. With g in [1.9, 3.2], peak_h in [0.38, 0.62],
vy = -sqrt(2*g*peak_h) (modelled by vy^2 = 2*g*peak_h) and a normalized
origin sy <= 1, the minimum reachable height y_min_exit equals sy - peak_h
for every exit time, the sampling interval is exactly
[max(0.05, y_min_exit + 0.02), 0.90] (the 0.95 clamp and the degenerate
widening never trigger in these ranges), and every draw u >= landLow
satisfies u >= y_min_exit + 0.02. -/
theorem c5_landing_above_reachable (sy vy g peak t_exit u : ℚ)
    (hsy : sy ≤ 1) (hg1 : (1.9 : ℚ) ≤ g) (hg2 : g ≤ 3.2)
    (hp1 : (0.38 : ℚ) ≤ peak) (hp2 : peak ≤ 0.62)
    (hvy : vy * vy = 2 * g * peak) :
    y_min_exit sy vy g t_exit = sy - peak
    ∧ landLow (y_min_exit sy vy g t_exit)
        = max 0.05 (y_min_exit sy vy g t_exit + 0.02)
    ∧ landHigh (y_min_exit sy vy g t_exit) = 0.90
    ∧ (landLow (y_min_exit sy vy g t_exit) ≤ u →
        y_min_exit sy vy g t_exit + 0.02 ≤ u) := by
  have hgpos : (0 : ℚ) < g := by linarith
  have hgne : g ≠ 0 := ne_of_gt hgpos
  have hmain : y_min_exit sy vy g t_exit = sy - peak := by
    rw [y_min_exit]
    rw [if_pos (by linarith : (1e-9 : ℚ) < g)]
    have hpeak : vy * vy / (2 * g) = peak := by
      rw [hvy]; field_simp
    field_simp
    nlinarith [hpeak, hgne]
  have hsmall : y_min_exit sy vy g t_exit + 0.02 ≤ 0.64 := by
    rw [hmain]; linarith
  have hlow : landLow (y_min_exit sy vy g t_exit)
      = max 0.05 (y_min_exit sy vy g t_exit + 0.02) := by
    rw [landLow, min_eq_right (by linarith : y_min_exit sy vy g t_exit + 0.02 ≤ 0.95)]
  refine ⟨hmain, hlow, ?_, ?_⟩
  · rw [landHigh, if_neg]
    rw [hlow]
    intro hcon
    have h064 : max (0.05 : ℚ) (y_min_exit sy vy g t_exit + 0.02) ≤ 0.64 :=
      max_le (by norm_num) hsmall
    have := le_trans hcon h064
    norm_num at this
  · intro hu
    calc y_min_exit sy vy g t_exit + 0.02
        ≤ max 0.05 (y_min_exit sy vy g t_exit + 0.02) := le_max_right _ _
      _ = landLow (y_min_exit sy vy g t_exit) := hlow.symm
      _ ≤ u := hu

/-- Witness for C5 at sy = 0.5, vy = -1.5, g = 2, peak = 0.5625 (so that
vy^2 = 2*g*peak), t_exit = 0, u = 0.05 = landLow: the drawn landing height
is at least y_min_exit + 0.02. -/
theorem c5_witness :
    y_min_exit 0.5 (-1.5) 2 0 + 0.02 ≤ 0.05 :=
  (c5_landing_above_reachable 0.5 (-1.5) 2 0.5625 0 0.05
      (by norm_num) (by norm_num) (by norm_num) (by norm_num) (by norm_num)
      (by norm_num)).2.2.2
    (by norm_num [landLow, y_min_exit])

/-- C6: a locally launched projectile (either direction) animates exactly
until the exit boundary and never triggers an impact effect on the
launching screen: the spawned overlay satisfies x(t_end) = 1.05 (right
exit) or x(t_end) = -0.05 (left exit), is created with allow_kill = False,
and the only finished-callback is the active-list removal, which never
shows an explosion at any point of any screen. -/
theorem c6_local_no_explosion (mult sx sy vx vy g : ℚ) (r : LocalRun)
    (geo : Rect) (p : ℤ × ℤ) :
    (shoot_projectile_local_exit_right sx sy vx vy g = .run r →
      r.x0 + r.vx * r.t_end = 1.05 ∧ r.allowKill = false
      ∧ finishExplodes geo localFinishEffects p = false)
    ∧ (shoot_projectile_local_exit_left mult sx sy vx vy g = .run r →
      r.x0 + r.vx * r.t_end = -0.05 ∧ r.allowKill = false
      ∧ finishExplodes geo localFinishEffects p = false) := by
  constructor
  · intro h
    rw [shoot_projectile_local_exit_right] at h
    by_cases hv : vx ≤ 0
    · simp [hv] at h
    rw [if_neg hv] at h
    simp only [] at h
    split_ifs at h with hpast
    rw [LocalOutcome.run.injEq] at h
    subst h
    refine ⟨?_, rfl, ?_⟩
    · have hne : vx ≠ 0 := fun hz => hv (le_of_eq hz)
      simp only []
      field_simp
    · simp [finishExplodes, localFinishEffects, effectExplodes]
  · intro h
    rw [shoot_projectile_local_exit_left] at h
    simp only [] at h
    by_cases hv : 0 ≤ vx * mult
    · simp [hv] at h
    rw [if_neg hv] at h
    split_ifs at h with hpast
    rw [LocalOutcome.run.injEq] at h
    subst h
    refine ⟨?_, rfl, ?_⟩
    · have hne : vx * mult ≠ 0 := fun hz => hv (ge_of_eq hz)
      simp only []
      field_simp
    · simp [finishExplodes, localFinishEffects, effectExplodes]

/-- Witness for C6 at the left-to-right launch (0.5, 0.5, 1, -1, 2). -/
theorem c6_witness :
    (⟨0.5, 0.5, 1, -1, 2, 0.55, false⟩ : LocalRun).x0
        + (⟨0.5, 0.5, 1, -1, 2, 0.55, false⟩ : LocalRun).vx
        * (⟨0.5, 0.5, 1, -1, 2, 0.55, false⟩ : LocalRun).t_end = 1.05
    ∧ (⟨0.5, 0.5, 1, -1, 2, 0.55, false⟩ : LocalRun).allowKill = false
    ∧ finishExplodes ⟨0, 0, 1920, 1080⟩ localFinishEffects (0, 0) = false :=
  (c6_local_no_explosion 1 0.5 0.5 1 (-1) 2 ⟨0.5, 0.5, 1, -1, 2, 0.55, false⟩
      ⟨0, 0, 1920, 1080⟩ (0, 0)).1
    (by norm_num [shoot_projectile_local_exit_right, LocalRun.mk.injEq])

/-- Helper: a service event whose embedded instance id equals the local one
produces no peer_found emission. -/
lemma self_event_none (localId : String) (e : SvcEvent)
    (h : e.instanceId = localId) :
    on_service_state_change localId false e = none := by
  simp [on_service_state_change, h]

/-- Helper: self events contribute nothing to the emission list. -/
lemma peerEmissions_filter_self (localId : String) (es : List SvcEvent) :
    peerEmissions localId es
      = peerEmissions localId (es.filter (fun e => e.instanceId != localId)) := by
  induction es with
  | nil => rfl
  | cons e es ih =>
    by_cases h : e.instanceId = localId
    · simp only [peerEmissions, List.filter_cons, List.filterMap_cons] at ih ⊢
      rw [self_event_none localId e h]
      simp [h, ih]
    · simp only [peerEmissions, List.filter_cons, List.filterMap_cons] at ih ⊢
      simp only [bne_iff_ne, ne_eq, h, not_false_eq_true, if_true, decide_True,
        List.filterMap_cons]
      cases hc : on_service_state_change localId false e <;> simp [hc] at ih ⊢ <;> exact ih

/-- Helper: connect_to preserves distinctness of tracked connection keys. -/
lemma connect_to_nodup (st : List (String × ℤ)) (k : String × ℤ)
    (h : st.Nodup) : (connect_to st k).Nodup := by
  rw [connect_to]
  split_ifs with hk
  · exact h
  · rw [List.nodup_append]
    exact ⟨h, List.nodup_singleton k, by
      intro a ha hb
      rw [List.mem_singleton] at hb
      exact hk (hb ▸ ha)⟩

/-- Helper: folding connect_to over any emission list keeps the tracked
keys distinct. -/
lemma connectionsOf_foldl_nodup (ems : List (String × String × ℤ)) :
    ∀ st : List (String × ℤ), st.Nodup →
      (ems.foldl (fun st e => connect_to st (e.2.1, e.2.2)) st).Nodup := by
  induction ems with
  | nil => intro st h; exact h
  | cons e es ih =>
    intro st h
    exact ih _ (connect_to_nodup st (e.2.1, e.2.2) h)

/-- Counterexample to C7: two Added announcements of the same remote
service (same host and port, instance id "P" distinct from the local "L")
produce two peer_found emissions for the one distinct (host, port) pair:
_on_service_state_change keeps no per-peer record, so the emission is not
deduplicated. -/
theorem c7_counterexample :
    peerEmissions "L"
        [⟨true, true, "P", some "10.0.0.2", 50505, "svc"⟩,
         ⟨true, true, "P", some "10.0.0.2", 50505, "svc"⟩]
      = [("svc", "10.0.0.2", 50505), ("svc", "10.0.0.2", 50505)] := by
  rfl

/-- C7 as amended: a discovered record whose embedded instance_id equals
the local id is never added as a peer (no emission, hence no connection),
even if announced multiple times; and at most one outbound connection is
ever opened per distinct (host, port), because MultiMessageClient dedups on
that key. However, the peer_found event itself is NOT deduplicated:
repeated Added announcements of the same (host, port) re-emit it (see the
counterexample); only the connection set is deduplicated. -/
theorem c7_amended_self_discard_and_connection_dedup (localId : String)
    (es : List SvcEvent) (e : SvcEvent) (ems : List (String × String × ℤ)) :
    (e.instanceId = localId → on_service_state_change localId false e = none)
    ∧ peerEmissions localId es
        = peerEmissions localId (es.filter (fun e => e.instanceId != localId))
    ∧ (connectionsOf ems).Nodup :=
  ⟨fun h => self_event_none localId e h,
   peerEmissions_filter_self localId es,
   connectionsOf_foldl_nodup ems [] List.nodup_nil⟩

/-- Witness for the amended C7: a self announcement yields no emission, and
the connections opened from a duplicated emission list are distinct. -/
theorem c7_amended_witness :
    on_service_state_change "L" false ⟨true, true, "L", some "10.0.0.2", 50505, "svc"⟩
      = none
    ∧ (connectionsOf [("svc", "10.0.0.2", 50505), ("svc", "10.0.0.2", 50505)]).Nodup :=
  ⟨(c7_amended_self_discard_and_connection_dedup "L" []
      ⟨true, true, "L", some "10.0.0.2", 50505, "svc"⟩ []).1 rfl,
   (c7_amended_self_discard_and_connection_dedup "L" []
      ⟨true, true, "L", some "10.0.0.2", 50505, "svc"⟩
      [("svc", "10.0.0.2", 50505), ("svc", "10.0.0.2", 50505)]).2.2⟩

/-- Helper: when a newline is present, dropWhile does not exhaust the list. -/
lemma dropWhile_ne_nil_of_mem {rx : List Nat} (h : 10 ∈ rx) :
    rx.dropWhile (fun c => c ≠ 10) ≠ [] := by
  intro hnil
  rw [List.dropWhile_eq_nil_iff] at hnil
  have := hnil 10 h
  simp at this

/-- Helper: splitting off the first line strictly shortens the buffer. -/
lemma rest_length_lt {rx : List Nat} (h : 10 ∈ rx) :
    ((rx.dropWhile (fun c => c ≠ 10)).drop 1).length < rx.length := by
  have h1 : (rx.dropWhile (fun c => c ≠ 10)).length ≤ rx.length :=
    List.Sublist.length_le (List.dropWhile_sublist _)
  have h2 : 0 < (rx.dropWhile (fun c => c ≠ 10)).length :=
    List.length_pos.mpr (dropWhile_ne_nil_of_mem h)
  rw [List.length_drop]
  omega

/-- Helper: drainGo is independent of the fuel once it covers the buffer
length. -/
lemma drainGo_stable (k : Bool) :
    ∀ fuel fuel2 rx, rx.length ≤ fuel → rx.length ≤ fuel2 →
      drainGo k fuel rx = drainGo k fuel2 rx := by
  intro fuel
  induction fuel with
  | zero =>
    intro fuel2 rx h1 _
    have hrx : rx = [] := List.eq_nil_of_length_eq_zero (Nat.le_zero.mp h1)
    subst hrx
    cases fuel2 <;> simp [drainGo]
  | succ n ih =>
    intro fuel2 rx h1 h2
    cases fuel2 with
    | zero =>
      have hrx : rx = [] := List.eq_nil_of_length_eq_zero (Nat.le_zero.mp h2)
      subst hrx
      simp [drainGo]
    | succ m =>
      simp only [drainGo]
      by_cases hmem : 10 ∈ rx
      · have hlt := rest_length_lt hmem
        rw [if_pos hmem, if_pos hmem]
        rw [ih m ((rx.dropWhile (fun c => c ≠ 10)).drop 1) (by omega) (by omega)]
      · rw [if_neg hmem, if_neg hmem]

/-- Helper: one-step unfolding of a full _on_ready_read pass. -/
lemma drain_unfold (k : Bool) (rx : List Nat) :
    drain k rx =
      if 10 ∈ rx then
        (if k || !((rx.takeWhile (fun c => c ≠ 10)).isEmpty)
          then rx.takeWhile (fun c => c ≠ 10)
            :: (drain k ((rx.dropWhile (fun c => c ≠ 10)).drop 1)).1
          else (drain k ((rx.dropWhile (fun c => c ≠ 10)).drop 1)).1,
         (drain k ((rx.dropWhile (fun c => c ≠ 10)).drop 1)).2)
      else ([], rx) := by
  rw [drain]
  by_cases hmem : 10 ∈ rx
  · rw [if_pos hmem]
    have hpos : 0 < rx.length := by
      cases rx
      · simp at hmem
      · simp
    obtain ⟨n, hn⟩ : ∃ n, rx.length = n + 1 := ⟨rx.length - 1, by omega⟩
    rw [hn]
    simp only [drainGo]
    rw [if_pos hmem]
    have hst : drainGo k n ((rx.dropWhile (fun c => c ≠ 10)).drop 1)
        = drain k ((rx.dropWhile (fun c => c ≠ 10)).drop 1) := by
      rw [drain]
      exact drainGo_stable k n _ _ (by have := rest_length_lt hmem; omega) le_rfl
    rw [hst]
  · rw [if_neg hmem]
    cases hn : rx.length with
    | zero => simp [drainGo]
    | succ m => simp only [drainGo]; rw [if_neg hmem]

/-- Helper: a buffer without newline passes through unchanged. -/
lemma drain_no_mem (k : Bool) (rx : List Nat) (h : 10 ∉ rx) :
    drain k rx = ([], rx) := by
  rw [drain_unfold, if_neg h]

/-- Helper: the residual buffer after a pass never contains a newline. -/
lemma drain_buf_no_newline (k : Bool) :
    ∀ n (rx : List Nat), rx.length ≤ n → 10 ∉ (drain k rx).2 := by
  intro n
  induction n with
  | zero =>
    intro rx h
    have hrx : rx = [] := List.eq_nil_of_length_eq_zero (Nat.le_zero.mp h)
    subst hrx
    rw [drain_no_mem k [] (by simp)]
    simp
  | succ m ih =>
    intro rx h
    rw [drain_unfold]
    by_cases hmem : 10 ∈ rx
    · rw [if_pos hmem]
      exact ih _ (by have := rest_length_lt hmem; omega)
    · rw [if_neg hmem]
      simpa using hmem

/-- Helper: takeWhile up to the first newline ignores appended bytes. -/
lemma takeWhile_append_of_mem :
    ∀ (rx t : List Nat), 10 ∈ rx →
      (rx ++ t).takeWhile (fun c => c ≠ 10) = rx.takeWhile (fun c => c ≠ 10) := by
  intro rx
  induction rx with
  | nil => intro t h; simp at h
  | cons c cs ih =>
    intro t h
    by_cases hc : c = 10
    · subst hc
      rw [List.cons_append,
        List.takeWhile_cons_of_neg (p := fun c => decide (c ≠ 10)) (l := cs ++ t) (by simp),
        List.takeWhile_cons_of_neg (p := fun c => decide (c ≠ 10)) (l := cs) (by simp)]
    · have hmem : 10 ∈ cs := by
        rcases List.mem_cons.mp h with h10 | h10
        · exact absurd h10.symm hc
        · exact h10
      rw [List.cons_append,
        List.takeWhile_cons_of_pos (p := fun c => decide (c ≠ 10)) (l := cs ++ t) (by simp [hc]),
        List.takeWhile_cons_of_pos (p := fun c => decide (c ≠ 10)) (l := cs) (by simp [hc]),
        ih t hmem]

/-- Helper: dropWhile up to the first newline commutes with appending. -/
lemma dropWhile_append_of_mem :
    ∀ (rx t : List Nat), 10 ∈ rx →
      (rx ++ t).dropWhile (fun c => c ≠ 10) = rx.dropWhile (fun c => c ≠ 10) ++ t := by
  intro rx
  induction rx with
  | nil => intro t h; simp at h
  | cons c cs ih =>
    intro t h
    by_cases hc : c = 10
    · subst hc
      rw [List.cons_append,
        List.dropWhile_cons_of_neg (p := fun c => decide (c ≠ 10)) (l := cs ++ t) (by simp),
        List.dropWhile_cons_of_neg (p := fun c => decide (c ≠ 10)) (l := cs) (by simp),
        List.cons_append]
    · have hmem : 10 ∈ cs := by
        rcases List.mem_cons.mp h with h10 | h10
        · exact absurd h10.symm hc
        · exact h10
      rw [List.cons_append,
        List.dropWhile_cons_of_pos (p := fun c => decide (c ≠ 10)) (l := cs ++ t) (by simp [hc]),
        List.dropWhile_cons_of_pos (p := fun c => decide (c ≠ 10)) (l := cs) (by simp [hc]),
        ih t hmem]

/-- Helper: a pass over rx ++ t equals the pass over rx followed by a pass
over the residue of rx prefixed to t. This is the chunking-invariance of
the _on_ready_read loop. -/
lemma drain_append (k : Bool) :
    ∀ n (rx : List Nat), rx.length ≤ n → ∀ t,
      drain k (rx ++ t)
        = ((drain k rx).1 ++ (drain k ((drain k rx).2 ++ t)).1,
           (drain k ((drain k rx).2 ++ t)).2) := by
  intro n
  induction n with
  | zero =>
    intro rx h t
    have hrx : rx = [] := List.eq_nil_of_length_eq_zero (Nat.le_zero.mp h)
    subst hrx
    rw [drain_no_mem k [] (by simp)]
    simp
  | succ m ih =>
    intro rx h t
    by_cases hmem : 10 ∈ rx
    · have hmem2 : 10 ∈ rx ++ t := List.mem_append_left t hmem
      rw [drain_unfold k (rx ++ t), if_pos hmem2,
          takeWhile_append_of_mem rx t hmem, dropWhile_append_of_mem rx t hmem]
      have hd : (rx.dropWhile (fun c => c ≠ 10) ++ t).drop 1
          = (rx.dropWhile (fun c => c ≠ 10)).drop 1 ++ t := by
        apply List.drop_append_of_le_length
        have := List.length_pos.mpr (dropWhile_ne_nil_of_mem hmem)
        omega
      rw [hd]
      rw [ih ((rx.dropWhile (fun c => c ≠ 10)).drop 1)
          (by have := rest_length_lt hmem; omega) t]
      rw [drain_unfold k rx, if_pos hmem]
      split_ifs <;> simp
    · rw [drain_no_mem k rx hmem]
      simp

/-- The newline-delimited lines of a byte stream with the trailing partial
line, written directly from the specification wording: each byte either
ends the current line (newline) or extends the first line if one is still
open, otherwise belongs to the trailing partial remainder. Used as the
specification-side reference for the buffered splitting loop. -/
def specSplit : List Nat → List (List Nat) × List Nat
  | [] => ([], [])
  | c :: rest =>
      let p := specSplit rest
      if c = 10 then ([] :: p.1, p.2)
      else
        match p.1 with
        | [] => ([], c :: p.2)
        | l :: ls => ((c :: l) :: ls, p.2)

/-- Helper: the client-side (keep-empty-lines) loop computes exactly the
specification-side line split. -/
lemma drain_true_spec : ∀ rx, drain true rx = specSplit rx := by
  intro rx
  induction rx with
  | nil =>
    rw [drain_no_mem true [] (by simp)]
    rfl
  | cons c cs ih =>
    by_cases hc : c = 10
    · subst hc
      rw [drain_unfold, if_pos (List.mem_cons_self 10 cs)]
      rw [List.takeWhile_cons_of_neg (p := fun c => decide (c ≠ 10)) (l := cs) (by simp),
        List.dropWhile_cons_of_neg (p := fun c => decide (c ≠ 10)) (l := cs) (by simp)]
      simp only [List.drop_succ_cons, List.drop_zero, List.isEmpty_nil, Bool.not_true,
        Bool.or_false, Bool.true_or, if_true]
      rw [specSplit, ih]
      simp
    · by_cases hmem : 10 ∈ cs
      · have hmem2 : 10 ∈ c :: cs := List.mem_cons_of_mem c hmem
        rw [drain_unfold, if_pos hmem2]
        rw [List.takeWhile_cons_of_pos (p := fun c => decide (c ≠ 10)) (l := cs) (by simp [hc]),
          List.dropWhile_cons_of_pos (p := fun c => decide (c ≠ 10)) (l := cs) (by simp [hc])]
        rw [drain_unfold, if_pos hmem] at ih
        simp only [Bool.true_or, if_true] at ih ⊢
        rw [specSplit, ← ih, if_neg hc]
      · have hnot : 10 ∉ c :: cs := by
          intro hin
          rcases List.mem_cons.mp hin with h10 | h10
          · exact hc h10.symm
          · exact hmem h10
        rw [drain_no_mem true _ hnot]
        have hcs : specSplit cs = ([], cs) := by
          rw [← ih, drain_no_mem true cs hmem]
        rw [specSplit, hcs]
        simp [hc]

/-- Helper: the server-side loop emits exactly the nonempty lines of the
client-side loop, with the same residual buffer. -/
lemma drain_false_filter :
    ∀ n (rx : List Nat), rx.length ≤ n →
      drain false rx
        = ((drain true rx).1.filter (fun l => !l.isEmpty), (drain true rx).2) := by
  intro n
  induction n with
  | zero =>
    intro rx h
    have hrx : rx = [] := List.eq_nil_of_length_eq_zero (Nat.le_zero.mp h)
    subst hrx
    rw [drain_no_mem false [] (by simp), drain_no_mem true [] (by simp)]
    rfl
  | succ m ih =>
    intro rx h
    by_cases hmem : 10 ∈ rx
    · rw [drain_unfold false rx, if_pos hmem, drain_unfold true rx, if_pos hmem]
      rw [ih _ (by have := rest_length_lt hmem; omega)]
      by_cases hline : (rx.takeWhile (fun c => c ≠ 10)).isEmpty = true
      · simp [List.filter_cons, hline]
      · simp [List.filter_cons, hline]
    · rw [drain_no_mem false rx hmem, drain_no_mem true rx hmem]
      rfl

/-- Helper: feeding chunks one at a time through the buffered loop equals
one pass over the whole concatenation, provided the starting buffer holds
no newline. -/
lemma runFrom_flatten (k : Bool) :
    ∀ (chunks : List (List Nat)) (buf : List Nat), 10 ∉ buf →
      runFrom k buf chunks = drain k (buf ++ chunks.flatten) := by
  intro chunks
  induction chunks with
  | nil =>
    intro buf h
    rw [runFrom, List.flatten_nil, List.append_nil, drain_no_mem k buf h]
  | cons c cs ih =>
    intro buf h
    rw [runFrom]
    rw [ih (drain k (buf ++ c)).2 (drain_buf_no_newline k (buf ++ c).length _ le_rfl)]
    rw [List.flatten_cons, ← List.append_assoc]
    rw [drain_append k (buf ++ c).length (buf ++ c) le_rfl cs.flatten]

/-- Counterexample to C8: the byte stream consisting of the single chunk
[10] (one bare newline) has exactly one complete line, the empty line, but
MessageServer emits no message for it (its loop drops empty lines), so the
emitted messages are not exactly the newline-delimited lines of the
concatenated stream. -/
theorem c8_counterexample :
    (serverMessages [[10]]).1 = []
    ∧ (specSplit (List.flatten [[10]])).1 = [[]]
    ∧ (serverMessages [[10]]).1 ≠ (specSplit (List.flatten [[10]])).1 := by
  have h1 : (serverMessages [[10]]).1 = [] := rfl
  have h2 : (specSplit (List.flatten [[10]])).1 = [[]] := rfl
  refine ⟨h1, h2, ?_⟩
  rw [h1, h2]
  simp

/-- C8 as amended: for every sequence of byte chunks on one connection,
MessageClient emits exactly the newline-delimited lines of the concatenated
byte stream in arrival order, while MessageServer emits exactly the
nonempty such lines (its loop skips empty lines); in both cases the
trailing partial line persists in the connection buffer across reads (the
final buffer is the trailing remainder and never contains a newline, so a
partial line is emitted only once its terminating newline arrives). -/
theorem c8_amended_line_splitting (chunks : List (List Nat)) :
    (clientMessages chunks).1 = (specSplit chunks.flatten).1
    ∧ (clientMessages chunks).2 = (specSplit chunks.flatten).2
    ∧ (serverMessages chunks).1 = (specSplit chunks.flatten).1.filter (fun l => !l.isEmpty)
    ∧ (serverMessages chunks).2 = (specSplit chunks.flatten).2
    ∧ 10 ∉ (clientMessages chunks).2 := by
  have hc : clientMessages chunks = specSplit chunks.flatten := by
    rw [clientMessages, runFrom_flatten true chunks [] (by simp), List.nil_append,
      drain_true_spec]
  have hs : serverMessages chunks
      = ((specSplit chunks.flatten).1.filter (fun l => !l.isEmpty),
         (specSplit chunks.flatten).2) := by
    rw [serverMessages, runFrom_flatten false chunks [] (by simp), List.nil_append,
      drain_false_filter chunks.flatten.length chunks.flatten le_rfl, drain_true_spec]
  refine ⟨by rw [hc], by rw [hc], by rw [hs], by rw [hs], ?_⟩
  rw [hc, ← drain_true_spec]
  exact drain_buf_no_newline true chunks.flatten.length _ le_rfl
